import Mathlib

/-!
Shallow embedding of the package-assembly engine of cbednarski/mkdeb
(src/deb/package.go) and proofs about it.

Modelling conventions:
* Go strings are Lean `String`; Go `[]byte` is `List Nat` (each entry < 256).
* Go `map[string]string` is an association list `List (String × String)`
  with pairwise-distinct keys; the list order stands for the (unspecified)
  Go map iteration order.
* Filesystem access is abstracted into a `GoFS` record (stat success, the
  `filepath.Walk` visit sequence of a root, and file contents); plain file
  creation failures (os.Create, os.MkdirAll) are modelled as succeeding,
  while content reads can fail.
* `fmt.Errorf` messages are reproduced as literal strings.
-/

set_option maxRecDepth 4096

deriving instance DecidableEq for Except

namespace Mkdeb

/-! ## String and byte helpers -/

/-- Concatenation of a list of strings (Go-style accumulation into a buffer). -/
def strJoin : List String → String
  | [] => ""
  | s :: rest => s ++ strJoin rest

/-- UTF-8 encoding of a single character, as Go produces when converting a
string to `[]byte`. -/
def utf8EncodeChar (c : Char) : List Nat :=
  let n := c.toNat
  if n < 128 then [n]
  else if n < 2048 then [192 + n / 64, 128 + n % 64]
  else if n < 65536 then [224 + n / 4096, 128 + n / 64 % 64, 128 + n % 64]
  else [240 + n / 262144, 128 + n / 4096 % 64, 128 + n / 64 % 64, 128 + n % 64]

/-- Go `[]byte(s)`: UTF-8 bytes of a string. -/
def utf8Bytes (s : String) : List Nat :=
  s.data.flatMap utf8EncodeChar

/-- The lowercase hexadecimal digits used by Go `encoding/hex`. -/
def hexDigits : List Char :=
  "0123456789abcdef".data

/-- Two lowercase hex characters for one byte, high nibble first
(Go `hex.EncodeToString`, one byte at a time). -/
def hexByte (b : Nat) : List Char :=
  [hexDigits.getD (b / 16 % 16) '0', hexDigits.getD (b % 16) '0']

/-- Go `hex.EncodeToString`. -/
def hexEncode (bs : List Nat) : String :=
  (bs.flatMap hexByte).asString

/-! ## MD5 (Go `crypto/md5`)

A direct implementation of RFC 1321 over `Nat` with explicit reduction
modulo `2^32`, used by `md5SumFile` below. -/

/-- 2^32. -/
def u32mod : Nat := 4294967296

/-- Bitwise complement on 32 bits (valid for inputs < 2^32). -/
def not32 (x : Nat) : Nat := 4294967295 - x

/-- Rotate a 32-bit word left by `s` (valid for `x < 2^32`, `s ≤ 32`). -/
def rotl32 (x s : Nat) : Nat :=
  (x % 2 ^ (32 - s)) * 2 ^ s + x / 2 ^ (32 - s)

/-- The MD5 sine-derived constant table. -/
def md5K : Array Nat := #[
  3614090360, 3905402710, 606105819, 3250441966, 4118548399, 1200080426, 2821735955, 4249261313,
  1770035416, 2336552879, 4294925233, 2304563134, 1804603682, 4254626195, 2792965006, 1236535329,
  4129170786, 3225465664, 643717713, 3921069994, 3593408605, 38016083, 3634488961, 3889429448,
  568446438, 3275163606, 4107603335, 1163531501, 2850285829, 4243563512, 1735328473, 2368359562,
  4294588738, 2272392833, 1839030562, 4259657740, 2763975236, 1272893353, 4139469664, 3200236656,
  681279174, 3936430074, 3572445317, 76029189, 3654602809, 3873151461, 530742520, 3299628645,
  4096336452, 1126891415, 2878612391, 4237533241, 1700485571, 2399980690, 4293915773, 2240044497,
  1873313359, 4264355552, 2734768916, 1309151649, 4149444226, 3174756917, 718787259, 3951481745]

/-- The MD5 per-round shift table. -/
def md5S : Array Nat := #[
  7, 12, 17, 22, 7, 12, 17, 22, 7, 12, 17, 22, 7, 12, 17, 22,
  5, 9, 14, 20, 5, 9, 14, 20, 5, 9, 14, 20, 5, 9, 14, 20,
  4, 11, 16, 23, 4, 11, 16, 23, 4, 11, 16, 23, 4, 11, 16, 23,
  6, 10, 15, 21, 6, 10, 15, 21, 6, 10, 15, 21, 6, 10, 15, 21]

structure MD5State where
  a : Nat
  b : Nat
  c : Nat
  d : Nat
deriving Repr, DecidableEq

/-- MD5 initial state. -/
def md5Init : MD5State := ⟨1732584193, 4023233417, 2562383102, 271733878⟩

/-- One of the 64 MD5 rounds, applied to the running state. -/
def md5Round (M : Array Nat) (st : MD5State) (i : Nat) : MD5State :=
  let fg :=
    if i < 16 then ((st.b.land st.c).lor ((not32 st.b).land st.d), i)
    else if i < 32 then ((st.d.land st.b).lor ((not32 st.d).land st.c), (5 * i + 1) % 16)
    else if i < 48 then ((st.b.xor st.c).xor st.d, (3 * i + 5) % 16)
    else (st.c.xor (st.b.lor (not32 st.d)), (7 * i) % 16)
  let f := (fg.1 + st.a + md5K.getD i 0 + M.getD fg.2 0) % u32mod
  ⟨st.d, (st.b + rotl32 f (md5S.getD i 0)) % u32mod, st.b, st.c⟩

/-- Little-endian 32-bit words from a byte stream. -/
def toWords : List Nat → List Nat
  | b0 :: b1 :: b2 :: b3 :: rest =>
    (b0 + 256 * b1 + 65536 * b2 + 16777216 * b3) :: toWords rest
  | _ => []

/-- Process one 64-byte chunk. -/
def md5Chunk (st : MD5State) (chunk : List Nat) : MD5State :=
  let M := Array.mk (toWords chunk)
  let r := (List.range 64).foldl (md5Round M) st
  ⟨(st.a + r.a) % u32mod, (st.b + r.b) % u32mod, (st.c + r.c) % u32mod, (st.d + r.d) % u32mod⟩

/-- MD5 padding: `0x80`, zeros to 56 mod 64, then the 64-bit little-endian
bit length. -/
def md5Pad (msg : List Nat) : List Nat :=
  let len := msg.length
  let z := (119 - len % 64) % 64
  let bits := (len * 8) % 18446744073709551616
  msg ++ 128 :: List.replicate z 0 ++ (List.range 8).map (fun i => bits / 2 ^ (8 * i) % 256)

/-- Split a byte stream into 64-byte chunks (structural recursion on a fuel
bound that always suffices). -/
def chunks64Aux : Nat → List Nat → List (List Nat)
  | 0, _ => []
  | _ + 1, [] => []
  | n + 1, b :: rest => (b :: rest).take 64 :: chunks64Aux n ((b :: rest).drop 64)

/-- Split a byte stream into 64-byte chunks. -/
def chunks64 (l : List Nat) : List (List Nat) :=
  chunks64Aux (l.length + 1) l

/-- Little-endian bytes of one 32-bit word. -/
def wordBytes (w : Nat) : List Nat :=
  [w % 256, w / 256 % 256, w / 65536 % 256, w / 16777216 % 256]

/-- The 16-byte MD5 digest of a byte stream. -/
def md5Bytes (msg : List Nat) : List Nat :=
  let st := (chunks64 (md5Pad msg)).foldl md5Chunk md5Init
  wordBytes st.a ++ wordBytes st.b ++ wordBytes st.c ++ wordBytes st.d

/-- The 32-character lowercase hex MD5 digest, as `md5SumFile` returns it. -/
def md5Hex (msg : List Nat) : String :=
  hexEncode (md5Bytes msg)

example : md5Hex [] = "d41d8cd98f00b204e9800998ecf8427e" := by decide
example : md5Hex (utf8Bytes "abc") = "900150983cd24fb0d6963f7d28e17f72" := by decide

/-! ## Go `path` and `path/filepath` (Linux semantics) -/

/-- `strings.Split` on a single separator character, over character lists. -/
def splitChar (sep : Char) : List Char → List (List Char)
  | [] => [[]]
  | c :: rest =>
    match splitChar sep rest with
    | [] => [[]]
    | h :: t => if c = sep then [] :: h :: t else (c :: h) :: t

/-- A well-formed path element on the clean stack: non-empty, free of
separators, and not the `.` element. -/
abbrev goodElem (e : List Char) : Prop :=
  e ≠ [] ∧ '/' ∉ e ∧ e ≠ ['.']

/-- Join path elements with `/` separators (no cleaning). -/
def joinSlash : List (List Char) → List Char
  | [] => []
  | [e] => e
  | e :: rest => e ++ '/' :: joinSlash rest

/-- One step of the element-stack formulation of Go `path.Clean`. The stack is
kept in reverse order (most recent element first). -/
def cleanStep (rooted : Bool) (stack : List (List Char)) (e : List Char) : List (List Char) :=
  if e = [] ∨ e = ['.'] then stack
  else if e = ['.', '.'] then
    match stack with
    | [] => if rooted then [] else [['.', '.']]
    | top :: rest => if top = ['.', '.'] then e :: stack else rest
  else e :: stack

/-- Go `path.Clean` on character lists: drop empty and `.` elements, resolve
`..` against the stack (absorbed at the root when rooted, accumulated in
front otherwise); a rooted result keeps its leading slash; an empty result
becomes `.`. -/
def cleanChars (cs : List Char) : List Char :=
  match cs with
  | [] => ['.']
  | c :: _ =>
    let rooted := c = '/'
    let elems := ((splitChar '/' cs).foldl (cleanStep rooted) []).reverse
    if rooted then '/' :: joinSlash elems
    else match elems with
      | [] => ['.']
      | _ => joinSlash elems

/-- Go `path.Clean`. -/
def pathClean (s : String) : String :=
  (cleanChars s.data).asString

/-- Join non-empty strings with `/` separators (the buffer `path.Join`
assembles before cleaning). -/
def joinNonEmpty : List String → String
  | [] => ""
  | [e] => e
  | e :: rest => e ++ "/" ++ joinNonEmpty rest

/-- Go `path.Join`: drop empty elements, join the rest with `/`, clean the
result; all-empty input yields the empty string. -/
def pathJoin (elems : List String) : String :=
  let nonempty := elems.filter (fun e => e ≠ "")
  if nonempty = [] then "" else pathClean (joinNonEmpty nonempty)

/-- Go `path.Base`. -/
def pathBase (s : String) : String :=
  if s = "" then "."
  else
    let cs := (s.data.reverse.dropWhile (fun c => c = '/')).reverse
    if cs = [] then "/"
    else ((cs.reverse.takeWhile (fun c => c ≠ '/')).reverse).asString

/-- The element list Go `filepath.Rel` effectively walks over for a cleaned
path: empty for the empty string, a single empty element for the root, and
the `/`-separated elements otherwise. -/
def relElems (s : String) : List (List Char) :=
  if s = "" then []
  else if s = "/" then [[]]
  else splitChar '/' s.data

/-- Length of the common prefix of two lists. -/
def commonPrefixLen [DecidableEq α] : List α → List α → Nat
  | a :: as, b :: bs => if a = b then commonPrefixLen as bs + 1 else 0
  | _, _ => 0

/-- Go `filepath.Rel` on Linux (empty volume names): clean both paths, strip
the maximal common element prefix, refuse to cross a leading `..` or mix
absolute with relative, and otherwise go up once per remaining base element
before descending into the remaining target elements. -/
def pathRel (basepath targpath : String) : Except String String :=
  let base := pathClean basepath
  let targ := pathClean targpath
  if targ = base then .ok "."
  else
    let base := if base = "." then "" else base
    let baseSlashed := base.data.head? = some '/'
    let targSlashed := targ.data.head? = some '/'
    if baseSlashed ≠ targSlashed then
      .error ("Rel: can't make " ++ targpath ++ " relative to " ++ basepath)
    else
      let belems := relElems base
      let telems := relElems targ
      let n := commonPrefixLen belems telems
      let brest := belems.drop n
      let trest := telems.drop n
      if brest.head? = some ['.', '.'] then
        .error ("Rel: can't make " ++ targpath ++ " relative to " ++ basepath)
      else if brest ≠ [] then
        .ok (joinSlash (List.replicate brest.length ['.', '.'] ++ trest)).asString
      else
        .ok (joinSlash trest).asString

example : pathClean "" = "." := by decide
example : pathClean "/" = "/" := by decide
example : pathClean "./etc/blah" = "etc/blah" := by decide
example : pathClean "/etc//x/../y" = "/etc/y" := by decide
example : pathClean "a/.." = "." := by decide
example : pathClean "../../x" = "../../x" := by decide
example : pathJoin [".", "/etc/config"] = "etc/config" := by decide
example : pathJoin [".", ""] = "." := by decide
example : pathJoin ["output", "mkdeb-0.1.0-amd64.deb"] = "output/mkdeb-0.1.0-amd64.deb" := by decide
example : pathBase "a/b/" = "b" := by decide
example : pathBase "///" = "/" := by decide
example : pathBase "deb-pkg/preinst" = "preinst" := by decide
example : pathRel "test-fixtures/package1" "test-fixtures/package1/etc/package1/config"
    = .ok "etc/package1/config" := by decide
example : pathRel "." "etc/blah" = .ok "etc/blah" := by decide
example : pathRel "a/b" "a" = .ok ".." := by decide
example : pathRel "/" "/a" = .ok "a" := by decide
example : pathRel "/a" "/" = .ok ".." := by decide
example : pathRel "a" "/b" = .error "Rel: can't make /b relative to a" := by decide
example : pathRel "../a" "b" = .error "Rel: can't make b relative to ../a" := by decide

/-! ## Data model -/

/-- One visit of `filepath.Walk`: the visited path and whether it is a
directory. -/
structure WalkEntry where
  path : String
  isDir : Bool
deriving DecidableEq, Repr

/-- The filesystem as the package code observes it: `statOk` is a successful
`os.Stat` (`FileExists`), `walk` is the ordered visit sequence of
`filepath.Walk` from a root, `contents` is a successful open-and-read of a
file, `fileMode` its permission bits. -/
structure GoFS where
  statOk : String → Bool
  walk : String → List WalkEntry
  contents : String → Option (List Nat)
  fileMode : String → Nat

/-- `deb.PackageSpec`. `Files` is the Go `map[string]string` as an
association list with pairwise-distinct keys, listed in the iteration order
the Go runtime happens to pick (Go fixes no order). `InstalledSize` is Go
`int64`. -/
structure PackageSpec where
  Package : String := ""
  Version : String := ""
  Architecture : String := ""
  Maintainer : String := ""
  Description : String := ""
  Depends : List String := []
  Conflicts : List String := []
  Breaks : List String := []
  Replaces : List String := []
  Section : String := ""
  Priority : String := ""
  Homepage : String := ""
  Preinst : String := ""
  Postinst : String := ""
  Prerm : String := ""
  Postrm : String := ""
  AutoPath : String := ""
  Files : List (String × String) := []
  TempPath : String := ""
  PreserveSymlinks : Bool := false
  UpgradeConfigs : Bool := false
  InstalledSize : Int := 0
deriving DecidableEq, Repr

/-- `deb.DefaultPackageSpec`. -/
def defaultPackageSpec : PackageSpec :=
  { Section := "default", Priority := "extra", AutoPath := "deb-pkg" }

/-- The `controlFiles` variable: script base names excluded from the data
archive. -/
def controlFilesList : List String := ["preinst", "postinst", "prerm", "postrm"]

/-- The `supportedArchitectures` variable. -/
def supportedArchitectures : List String :=
  ["all", "amd64", "arm64", "armel", "armhf", "i386", "mips", "mipsel",
   "powerpc", "ppc64el", "s390x"]

/-- `deb.hasString`. -/
def hasString (items : List String) (search : String) : Bool :=
  items.any (fun item => item = search)

/-! ## Validation -/

/-- Characters of the package-name part of the relation regexes:
`[a-zA-Z0-9.+_-]`. -/
def isNameChar (c : Char) : Bool :=
  c.isAlpha || c.isDigit || c = '.' || c = '+' || c = '_' || c = '-'

/-- Characters of the version part: `[0-9a-zA-Z.-]`. -/
def isVersChar (c : Char) : Bool :=
  c.isAlpha || c.isDigit || c = '.' || c = '-'

/-- After the first version digit: version characters, then `)`, then end of
input. -/
def versTail : List Char → Bool
  | [] => false
  | ')' :: r => r = []
  | c :: r => isVersChar c && versTail r

/-- A space, a leading digit and the version tail, closing the
parenthesized version constraint. -/
def versPart : List Char → Bool
  | ' ' :: d :: r => d.isDigit && versTail r
  | _ => false

/-- The optional ` (op version)` suffix of a relation entry, for a given
operator alternative set. -/
def relSuffix (ops : List (List Char)) : List Char → Bool
  | ' ' :: '(' :: r => ops.any (fun op => op.isPrefixOf r && versPart (r.drop op.length))
  | _ => false

/-- Whether a relation entry matches for the given operator set: a nonempty
run of name characters, optionally followed by ` (op version)` and nothing
else (RE2 anchored match). -/
def relMatch (ops : List (List Char)) (s : String) : Bool :=
  let cs := s.data
  let name := cs.takeWhile isNameChar
  let rest := cs.drop name.length
  !name.isEmpty && (rest.isEmpty || relSuffix ops rest)

/-- `reDepends`: pattern
`^[a-zA-Z0-9.+_-]+( \((>|>=|<|<=|=) ([0-9][0-9a-zA-Z.-]*?)\))?$`. -/
def reDependsMatch (s : String) : Bool :=
  relMatch [['>'], ['>', '='], ['<'], ['<', '='], ['=']] s

/-- `reReplacesEtc`: pattern `^[a-zA-Z0-9.+_-]+( \(<< ([0-9][0-9a-zA-Z.-]*?)\))?$`. -/
def reReplacesEtcMatch (s : String) : Bool :=
  relMatch [['<', '<']] s

example : reDependsMatch "curl (>= 7.0.0)" = true := by decide
example : reDependsMatch "python (= 2.7.12)" = true := by decide
example : reDependsMatch "tree" = true := by decide
example : reDependsMatch "bad space" = false := by decide
example : reDependsMatch "curl (>= x)" = false := by decide
example : reReplacesEtcMatch "libc (<< 5.1.2)" = true := by decide
example : reReplacesEtcMatch "libc (<= 5.1.2)" = false := by decide

/-- The ordered list of missing required field names collected by
`Validate`: package, version (build time only), architecture, maintainer,
description. -/
def missingFields (p : PackageSpec) (buildTime : Bool) : List String :=
  (if p.Package = "" then ["package"] else []) ++
  (if buildTime ∧ p.Version = "" then ["version"] else []) ++
  (if p.Architecture = "" then ["architecture"] else []) ++
  (if p.Maintainer = "" then ["maintainer"] else []) ++
  (if p.Description = "" then ["description"] else [])

/-- `PackageSpec.Validate`. -/
def Validate (p : PackageSpec) (buildTime : Bool) : Except String Unit :=
  let missing := missingFields p buildTime
  if missing ≠ [] then
    .error ("These required fields are missing: " ++ String.intercalate ", " missing)
  else if !hasString supportedArchitectures p.Architecture then
    .error ("Arch \"" ++ p.Architecture ++ "\" is not supported; expected one of "
      ++ String.intercalate ", " supportedArchitectures)
  else
    match p.Depends.find? (fun dep => !reDependsMatch dep) with
    | some dep => .error ("Dependency \"" ++ dep ++ "\" is invalid")
    | none =>
    match p.Replaces.find? (fun r => !reReplacesEtcMatch r) with
    | some r => .error ("Replacement \"" ++ r ++ "\" is invalid")
    | none =>
    match p.Conflicts.find? (fun c => !reReplacesEtcMatch c) with
    | some c => .error ("Conflict \"" ++ c ++ "\" is invalid")
    | none =>
    match p.Breaks.find? (fun b => !reReplacesEtcMatch b) with
    | some b => .error ("Break \"" ++ b ++ "\" is invalid")
    | none => .ok ()

/-- `PackageSpec.Filename`: `fmt.Sprintf("%s-%s-%s.deb", ...)`. -/
def Filename (p : PackageSpec) : String :=
  p.Package ++ "-" ++ p.Version ++ "-" ++ p.Architecture ++ ".deb"

/-! ## Path normalization and inventory -/

/-- Go map lookup on the association list. -/
def lookupFiles : List (String × String) → String → Option String
  | [], _ => none
  | (k, v) :: rest, key => if k = key then some v else lookupFiles rest key

/-- Whether `AutoPath` is enabled: non-empty and not `"-"`. -/
def autoPathEnabled (p : PackageSpec) : Bool :=
  p.AutoPath ≠ "" && p.AutoPath ≠ "-"

/-- `PackageSpec.NormalizeFilename`. -/
def NormalizeFilename (p : PackageSpec) (filename : String) : Except String String :=
  match lookupFiles p.Files filename with
  | some target => .ok (pathJoin [".", target])
  | none =>
    if autoPathEnabled p then
      match pathRel p.AutoPath filename with
      | .error e => .error e
      | .ok fpath => .ok (pathJoin [".", fpath])
    else
      .error ("Not sure what to do with \"" ++ filename
        ++ "\" because it is not specified in files and autopath is disabled")

/-- The source paths the `AutoPath` walk contributes to the inventory:
walked entries that are not directories and whose base name is not a
control file, in walk order; empty when `AutoPath` is disabled or does not
exist. -/
def walkSources (p : PackageSpec) (fs : GoFS) : List String :=
  if autoPathEnabled p && fs.statOk p.AutoPath then
    ((fs.walk p.AutoPath).filter
      (fun e => !e.isDir && !hasString controlFilesList (pathBase e.path))).map WalkEntry.path
  else []

/-- The shared loop body of `ListFiles`: normalize each source, fail with
the given duplicate message on an already-seen target, and otherwise append
the source and record the target. -/
def listFilesLoop (p : PackageSpec) (dupMsg : String → String) :
    List String → List String → List String → Except String (List String × List String)
  | [], files, targets => .ok (files, targets)
  | s :: rest, files, targets =>
    match NormalizeFilename p s with
    | .error e => .error e
    | .ok t =>
      if targets.contains t then .error (dupMsg s)
      else listFilesLoop p dupMsg rest (files ++ [s]) (targets ++ [t])

/-- `PackageSpec.ListFiles`: the `AutoPath` walk first, then the `Files`
keys in map-iteration order, with duplicate-target detection across both. -/
def ListFiles (p : PackageSpec) (fs : GoFS) : Except String (List String) :=
  match listFilesLoop p (fun s => "Duplicate file detected from AutoPath: " ++ s)
      (walkSources p fs) [] [] with
  | .error e => .error e
  | .ok (files, targets) =>
    match listFilesLoop p (fun s => "Duplicate file detected from Files: " ++ s)
        (p.Files.map Prod.fst) files targets with
    | .error e => .error e
    | .ok (files2, _) => .ok files2

/-- All included source paths, in processing order. -/
def includedSources (p : PackageSpec) (fs : GoFS) : List String :=
  walkSources p fs ++ p.Files.map Prod.fst

/-- Normalization of a whole list of sources, failing on the first failure. -/
def normalizeAll (p : PackageSpec) : List String → Except String (List String)
  | [] => .ok []
  | s :: rest =>
    match NormalizeFilename p s with
    | .error e => .error e
    | .ok t =>
      match normalizeAll p rest with
      | .error e => .error e
      | .ok ts => .ok (t :: ts)

/-- `strings.HasPrefix`. -/
def goHasPrefix (s pre : String) : Bool :=
  pre.data.isPrefixOf s.data

/-- The loop of `ListEtcFiles`: normalize each file and keep `"/" + n` for
every normalized path `n` with string prefix `etc`. -/
def listEtcLoop (p : PackageSpec) : List String → Except String (List String)
  | [] => .ok []
  | f :: rest =>
    match NormalizeFilename p f with
    | .error e => .error e
    | .ok n =>
      match listEtcLoop p rest with
      | .error e => .error e
      | .ok etc => .ok (if goHasPrefix n "etc" then ("/" ++ n) :: etc else etc)

/-- `PackageSpec.ListEtcFiles`. -/
def ListEtcFiles (p : PackageSpec) (fs : GoFS) : Except String (List String) :=
  if p.UpgradeConfigs then .ok []
  else
    match ListFiles p fs with
    | .error e => .error e
    | .ok files => listEtcLoop p files

/-- One entry of `MapControlFiles`: the explicit field if non-empty, else
the `AutoPath` probe when enabled and present, else nothing. -/
def mapControlEntry (p : PackageSpec) (fs : GoFS) (name field : String) :
    Option (String × String) :=
  if field ≠ "" then some (name, field)
  else if autoPathEnabled p && fs.statOk (pathJoin [p.AutoPath, name]) then
    some (name, pathJoin [p.AutoPath, name])
  else none

/-- `PackageSpec.MapControlFiles`. The Go map is built in the fixed field
order; since only membership matters to the claims below, the model keeps
insertion order. -/
def MapControlFiles (p : PackageSpec) (fs : GoFS) : List (String × String) :=
  [mapControlEntry p fs "preinst" p.Preinst,
   mapControlEntry p fs "postinst" p.Postinst,
   mapControlEntry p fs "prerm" p.Prerm,
   mapControlEntry p fs "postrm" p.Postrm].reduceOption

/-! ## Metrics -/

/-- `deb.md5SumFile`: open, read and hash a file. -/
def md5SumFile (fs : GoFS) (path : String) : Except String String :=
  match fs.contents path with
  | none => .error ("open " ++ path ++ ": no such file or directory")
  | some bs => .ok (md5Hex bs)

/-- The accumulation loop of `CalculateChecksums`, producing
`sum ++ "  " ++ normalized ++ "\n"` per file. -/
def checksumLoop (p : PackageSpec) (fs : GoFS) : List String → Except String String
  | [] => .ok ""
  | f :: rest =>
    match md5SumFile fs f with
    | .error e => .error e
    | .ok sum =>
      match NormalizeFilename p f with
      | .error e => .error e
      | .ok n =>
        match checksumLoop p fs rest with
        | .error e => .error e
        | .ok data => .ok (sum ++ "  " ++ n ++ "\n" ++ data)

/-- `PackageSpec.CalculateChecksums`. -/
def CalculateChecksums (p : PackageSpec) (fs : GoFS) : Except String String :=
  match ListFiles p fs with
  | .error e => .error e
  | .ok files => checksumLoop p fs files

/-! ## Control file rendering -/

/-- The template helper `join`: `strings.Join(s, ", ")`. -/
def joinComma (s : List String) : String :=
  String.intercalate ", " s

/-- `PackageSpec.RenderControlFile`, the execution of
`controlFileTemplate`. The `{{-` markers trim the newline that ends the
`Installed-Size` line, each conditional block re-introduces it in front of
its relation line, and the text after the final `{{- end }}` starts with
the newline that terminates the last emitted relation line (or the
`Installed-Size` line when all lists are empty). Under the Go toolchain
this code targets, `(len .Depends) gt 0` evaluates the parenthesized
pipeline and ignores the trailing words, so a block is rendered exactly
when its list is non-empty, which is what the control-rendering tests of
the repository record. Template execution cannot fail on a
`bytes.Buffer`. -/
def RenderControlFile (p : PackageSpec) : Except String String :=
  .ok ("Package: " ++ p.Package
    ++ "\nVersion: " ++ p.Version
    ++ "\nArchitecture: " ++ p.Architecture
    ++ "\nMaintainer: " ++ p.Maintainer
    ++ "\nInstalled-Size: " ++ toString p.InstalledSize
    ++ (if p.Depends ≠ [] then "\nDepends: " ++ joinComma p.Depends else "")
    ++ (if p.Conflicts ≠ [] then "\nConflicts: " ++ joinComma p.Conflicts else "")
    ++ (if p.Breaks ≠ [] then "\nBreaks: " ++ joinComma p.Breaks else "")
    ++ (if p.Replaces ≠ [] then "\nReplaces: " ++ joinComma p.Replaces else "")
    ++ "\nSection: " ++ p.Section
    ++ "\nPriority: " ++ p.Priority
    ++ "\nHomepage: " ++ p.Homepage
    ++ "\nDescription: " ++ p.Description ++ "\n")

/-! ## Archive construction -/

/-- One tar entry as the archive builders emit it (owner fields and
timestamps, which are constant resp. wall-clock, are not modelled). -/
structure TarEntry where
  name : String
  mode : Nat
  data : List Nat
deriving DecidableEq, Repr

/-- `PackageSpec.CreateControlArchive`, abstracted to the sequence of tar
entries written into the gzipped tar: `md5sums`, `conffiles`, `control`,
then the control scripts. Scratch-file creation itself is handled by
`Build` below. -/
def CreateControlArchive (p : PackageSpec) (fs : GoFS) : Except String (List TarEntry) :=
  match CalculateChecksums p fs with
  | .error e => .error e
  | .ok sumData =>
    match ListEtcFiles p fs with
    | .error e => .error e
    | .ok confFiles =>
      let confData := utf8Bytes (String.intercalate "\n" confFiles ++ "\n")
      match RenderControlFile p with
      | .error e => .error e
      | .ok controlData =>
        match (MapControlFiles p fs).mapM (fun entry =>
            match fs.contents entry.2 with
            | none => Except.error ("Failed reading script \"" ++ entry.2 ++ "\"")
            | some bytes => Except.ok (TarEntry.mk entry.1 493 bytes)) with
        | .error e => .error e
        | .ok scriptEntries =>
          .ok (TarEntry.mk "md5sums" 384 (utf8Bytes sumData)
            :: TarEntry.mk "conffiles" 384 confData
            :: TarEntry.mk "control" 384 (utf8Bytes controlData)
            :: scriptEntries)

/-- `PackageSpec.CreateDataArchive`, abstracted to the tar entries: each
inventory file under its normalized name with its stat mode and contents. -/
def CreateDataArchive (p : PackageSpec) (fs : GoFS) : Except String (List TarEntry) :=
  match ListFiles p fs with
  | .error e => .error e
  | .ok files =>
    files.mapM (fun filename =>
      match fs.contents filename with
      | none => Except.error ("open " ++ filename ++ ": no such file or directory")
      | some bytes =>
        match NormalizeFilename p filename with
        | .error e => Except.error e
        | .ok target => Except.ok (TarEntry.mk target (fs.fileMode filename) bytes))

/-- Payload of one `ar` member: raw bytes for `debian-binary`, a gzipped
tar (abstracted to its entries) for the two archives. -/
inductive ArData where
  | raw (bytes : List Nat)
  | targz (entries : List TarEntry)
deriving DecidableEq, Repr

/-- One member of the outer `ar` archive. -/
structure ArMember where
  name : String
  data : ArData
deriving DecidableEq, Repr

/-- What a successful `Build` wrote: the output file path and the `ar`
members in order. -/
structure BuildTrace where
  outPath : String
  members : List ArMember
deriving DecidableEq, Repr

/-- The observable outcome of `Build`: its result plus the scratch files it
passed to `os.Create` and to `os.Remove`, in call order. -/
structure BuildOutcome where
  result : Except String BuildTrace
  created : List String
  removed : List String
deriving DecidableEq, Repr

/-- `PackageSpec.Build`. Validation first; the scratch archives are created
at the literal relative paths `"control.tar.gz"` and `"data.tar.gz"`
(`TempPath` is never consulted); `defer os.Remove` is registered for each
scratch file only after the corresponding `Create*Archive` call returns
successfully, and deferred removals run last-in-first-out when `Build`
returns. -/
def Build (p : PackageSpec) (fs : GoFS) (target : String) : BuildOutcome :=
  match Validate p true with
  | .error e => ⟨.error e, [], []⟩
  | .ok _ =>
    let outPath := pathJoin [target, Filename p]
    let debianBinary : ArMember := ⟨"debian-binary", .raw (utf8Bytes "2.0\n")⟩
    match CreateControlArchive p fs with
    | .error e =>
      ⟨.error ("Failed to compress control files: " ++ e), ["control.tar.gz"], []⟩
    | .ok controlEntries =>
      match CreateDataArchive p fs with
      | .error e =>
        ⟨.error ("Failed to compress data files: " ++ e),
         ["control.tar.gz", "data.tar.gz"], ["control.tar.gz"]⟩
      | .ok dataEntries =>
        ⟨.ok ⟨outPath,
           [debianBinary,
            ⟨"control.tar.gz", .targz controlEntries⟩,
            ⟨"data.tar.gz", .targz dataEntries⟩]⟩,
         ["control.tar.gz", "data.tar.gz"],
         ["data.tar.gz", "control.tar.gz"]⟩

/-! ## Concrete fixtures (mirroring the test fixtures of the repository) -/

/-- A filesystem with no files at all. -/
def fsEmpty : GoFS :=
  ⟨fun _ => false, fun _ => [], fun _ => none, fun _ => 420⟩

/-- The spec of `test-fixtures/example-basic.json` with the build version
injected and `AutoPath` disabled. -/
def specBasic : PackageSpec :=
  { Package := "mkdeb", Version := "0.1.0", Architecture := "amd64",
    Maintainer := "Chris Bednarski <banzaimonkey@gmail.com>",
    Description := "A CLI tool for building debian packages",
    Homepage := "https://github.com/cbednarski/mkdeb",
    Section := "default", Priority := "extra", AutoPath := "-" }

/-- `specBasic` pointed at the `test-fixtures/package1` tree. -/
def specPkg1 : PackageSpec :=
  { specBasic with AutoPath := "test-fixtures/package1" }

/-- The `test-fixtures/package1` tree: a config file, a preinst script and
a binary. -/
def fsPkg1 : GoFS where
  statOk := fun s => s = "test-fixtures/package1" || s = "test-fixtures/package1/preinst"
  walk := fun root =>
    if root = "test-fixtures/package1" then
      [⟨"test-fixtures/package1", true⟩,
       ⟨"test-fixtures/package1/etc", true⟩,
       ⟨"test-fixtures/package1/etc/package1", true⟩,
       ⟨"test-fixtures/package1/etc/package1/config", false⟩,
       ⟨"test-fixtures/package1/preinst", false⟩,
       ⟨"test-fixtures/package1/usr", true⟩,
       ⟨"test-fixtures/package1/usr/local", true⟩,
       ⟨"test-fixtures/package1/usr/local/bin", true⟩,
       ⟨"test-fixtures/package1/usr/local/bin/package1", false⟩]
    else []
  contents := fun s =>
    if s = "test-fixtures/package1/etc/package1/config" then some (utf8Bytes "config file\n")
    else if s = "test-fixtures/package1/usr/local/bin/package1" then some (utf8Bytes "binary\n")
    else if s = "test-fixtures/package1/preinst" then some (utf8Bytes "#!/bin/sh\n")
    else none
  fileMode := fun _ => 420

example : ListFiles specPkg1 fsPkg1 =
    .ok ["test-fixtures/package1/etc/package1/config",
         "test-fixtures/package1/usr/local/bin/package1"] := by decide
example : NormalizeFilename specPkg1 "test-fixtures/package1/etc/package1/config"
    = .ok "etc/package1/config" := by decide
example : ListEtcFiles specPkg1 fsPkg1 = .ok ["/etc/package1/config"] := by decide
example : MapControlFiles specPkg1 fsPkg1
    = [("preinst", "test-fixtures/package1/preinst")] := by decide
example : Filename specBasic = "mkdeb-0.1.0-amd64.deb" := by decide
example : defaultPackageSpec.AutoPath = "deb-pkg" := by decide
example : Validate specBasic true = .ok () := by decide
example : RenderControlFile specBasic = .ok
    ("Package: mkdeb\nVersion: 0.1.0\nArchitecture: amd64\n"
      ++ "Maintainer: Chris Bednarski <banzaimonkey@gmail.com>\nInstalled-Size: 0\n"
      ++ "Section: default\nPriority: extra\nHomepage: https://github.com/cbednarski/mkdeb\n"
      ++ "Description: A CLI tool for building debian packages\n") := by decide
example : RenderControlFile { specBasic with Depends := ["wget", "tree"] } = .ok
    ("Package: mkdeb\nVersion: 0.1.0\nArchitecture: amd64\n"
      ++ "Maintainer: Chris Bednarski <banzaimonkey@gmail.com>\nInstalled-Size: 0\n"
      ++ "Depends: wget, tree\n"
      ++ "Section: default\nPriority: extra\nHomepage: https://github.com/cbednarski/mkdeb\n"
      ++ "Description: A CLI tool for building debian packages\n") := by decide

/-! ## General lemmas about the embedding -/

theorem strAppend_assoc (a b c : String) : a ++ b ++ c = a ++ (b ++ c) :=
  String.ext (by simp [String.data_append])

theorem strAppend_right_empty (a : String) : a ++ "" = a :=
  String.ext (by simp [String.data_append])

/-! ## C4: missing required fields -/

/-- C4: `Validate(buildTime)` collects missing required fields in the fixed
order package, version, architecture, maintainer, description (see
`missingFields`, which skips version when `buildTime` is false), and when
any are missing it fails with the message
`These required fields are missing: ` followed by the comma-joined names. -/
theorem C4_validate_missing (p : PackageSpec) (buildTime : Bool)
    (h : missingFields p buildTime ≠ []) :
    Validate p buildTime = .error
      ("These required fields are missing: "
        ++ String.intercalate ", " (missingFields p buildTime)) := by
  unfold Validate
  rw [if_pos h]

/-- C4 witness: `Validate(true)` on the empty spec fails with exactly the
full five-name message. -/
theorem C4_validate_missing_witness :
    Validate {} true = .error
      "These required fields are missing: package, version, architecture, maintainer, description" :=
  (C4_validate_missing {} true (by decide)).trans (by decide)

/-! ## C5: control file rendering -/

/-- The emitted control-file lines, in template order; a relation line is
present exactly when its list is non-empty. -/
def controlLines (p : PackageSpec) : List String :=
  ["Package: " ++ p.Package,
   "Version: " ++ p.Version,
   "Architecture: " ++ p.Architecture,
   "Maintainer: " ++ p.Maintainer,
   "Installed-Size: " ++ toString p.InstalledSize]
  ++ (if p.Depends ≠ [] then ["Depends: " ++ joinComma p.Depends] else [])
  ++ (if p.Conflicts ≠ [] then ["Conflicts: " ++ joinComma p.Conflicts] else [])
  ++ (if p.Breaks ≠ [] then ["Breaks: " ++ joinComma p.Breaks] else [])
  ++ (if p.Replaces ≠ [] then ["Replaces: " ++ joinComma p.Replaces] else [])
  ++ ["Section: " ++ p.Section,
      "Priority: " ++ p.Priority,
      "Homepage: " ++ p.Homepage,
      "Description: " ++ p.Description]

/-- C5: for every spec `RenderControlFile` succeeds and its output is
exactly the concatenation of `controlLines` — the fields Package, Version,
Architecture, Maintainer, Installed-Size, then Depends, Conflicts, Breaks,
Replaces each only when non-empty with members joined by a comma and a
space, then Section, Priority, Homepage, Description — each line terminated
by a newline. -/
theorem C5_render_control_lines (p : PackageSpec) :
    RenderControlFile p = .ok (strJoin ((controlLines p).map (fun l => l ++ "\n"))) := by
  unfold RenderControlFile controlLines
  by_cases hd : p.Depends = [] <;> by_cases hc : p.Conflicts = [] <;>
    by_cases hb : p.Breaks = [] <;> by_cases hr : p.Replaces = [] <;>
  · simp only [hd, hc, hb, hr, ne_eq, not_true_eq_false, not_false_eq_true, if_true, if_false,
      ite_true, ite_false, List.append_nil, List.nil_append, List.cons_append, List.map,
      strJoin,
      (by decide : ("\nVersion: " : String) = "\n" ++ "Version: "),
      (by decide : ("\nArchitecture: " : String) = "\n" ++ "Architecture: "),
      (by decide : ("\nMaintainer: " : String) = "\n" ++ "Maintainer: "),
      (by decide : ("\nInstalled-Size: " : String) = "\n" ++ "Installed-Size: "),
      (by decide : ("\nDepends: " : String) = "\n" ++ "Depends: "),
      (by decide : ("\nConflicts: " : String) = "\n" ++ "Conflicts: "),
      (by decide : ("\nBreaks: " : String) = "\n" ++ "Breaks: "),
      (by decide : ("\nReplaces: " : String) = "\n" ++ "Replaces: "),
      (by decide : ("\nSection: " : String) = "\n" ++ "Section: "),
      (by decide : ("\nPriority: " : String) = "\n" ++ "Priority: "),
      (by decide : ("\nHomepage: " : String) = "\n" ++ "Homepage: "),
      (by decide : ("\nDescription: " : String) = "\n" ++ "Description: "),
      strAppend_assoc, strAppend_right_empty]

/-! ## C1: shape of a successful build -/

/-- C1: for every `PackageSpec` that passes `Validate(true)`, a successful
`Build(target)` writes the output at `path.Join(target, Filename())`, where
`Filename()` is `{Package}-{Version}-{Architecture}.deb`, and the written
file is an `ar` archive with exactly three members in order
`debian-binary`, `control.tar.gz`, `data.tar.gz`, the `debian-binary`
member holding exactly the four bytes of `"2.0\n"`. -/
theorem C1_build_output (p : PackageSpec) (fs : GoFS) (target : String) (tr : BuildTrace)
    (hval : Validate p true = .ok ()) (hok : (Build p fs target).result = .ok tr) :
    tr.outPath = pathJoin [target, Filename p] ∧
    Filename p = p.Package ++ "-" ++ p.Version ++ "-" ++ p.Architecture ++ ".deb" ∧
    tr.members.map ArMember.name = ["debian-binary", "control.tar.gz", "data.tar.gz"] ∧
    tr.members.head? = some ⟨"debian-binary", .raw (utf8Bytes "2.0\n")⟩ ∧
    utf8Bytes "2.0\n" = [50, 46, 48, 10] ∧ (utf8Bytes "2.0\n").length = 4 := by
  unfold Build at hok
  split at hok
  · simp at hok
  · split at hok
    · simp at hok
    · split at hok
      · simp at hok
      · simp only [Except.ok.injEq] at hok
        subst hok
        exact ⟨rfl, rfl, rfl, rfl, by decide, by decide⟩

/-- The `BuildTrace` of the basic spec built against the empty filesystem. -/
def c1Trace : BuildTrace :=
  ((Build specBasic fsEmpty "output").result).toOption.getD ⟨"", []⟩

/-- C1 witness: the basic spec builds successfully and the conclusion of
`C1_build_output` holds at it. -/
theorem C1_build_output_witness :
    (Build specBasic fsEmpty "output").result = .ok c1Trace ∧
    c1Trace.outPath = "output/mkdeb-0.1.0-amd64.deb" ∧
    c1Trace.members.map ArMember.name = ["debian-binary", "control.tar.gz", "data.tar.gz"] := by
  have h := C1_build_output specBasic fsEmpty "output" c1Trace (by decide) (by decide)
  exact ⟨by decide, h.1.trans (by decide), h.2.2.1⟩

/-! ## C8: scratch file locations and deletion -/

/-- `specBasic` with a scratch directory configured. -/
def specTemp : PackageSpec :=
  { specBasic with TempPath := "test-fixtures" }

/-- `specBasic` with a `Files` entry whose source cannot be read, so
`CreateControlArchive` fails after its scratch file was created. -/
def specScriptless : PackageSpec :=
  { specBasic with Files := [("missingsrc", "/usr/bin/m")] }

/-- C8 (divergence witness): even with `TempPath` set, `Build` creates its
scratch archives at the literal working-directory paths `control.tar.gz`
and `data.tar.gz` — never inside `TempPath` — and when
`CreateControlArchive` fails after creating its scratch file, no removal
happens before `Build` returns. -/
theorem C8_temp_path_ignored :
    specTemp.TempPath = "test-fixtures" ∧
    (Build specTemp fsEmpty "output").result.isOk = true ∧
    (Build specTemp fsEmpty "output").created = ["control.tar.gz", "data.tar.gz"] ∧
    "test-fixtures/control.tar.gz" ∉ (Build specTemp fsEmpty "output").created ∧
    "test-fixtures/data.tar.gz" ∉ (Build specTemp fsEmpty "output").created ∧
    (Build specScriptless fsEmpty "output").result.isOk = false ∧
    (Build specScriptless fsEmpty "output").created = ["control.tar.gz"] ∧
    (Build specScriptless fsEmpty "output").removed = [] := by decide

/-! ## C9: iteration order of the Files map -/

/-- `specBasic` with two explicit Files entries, in one map iteration
order. -/
def specOrderA : PackageSpec :=
  { specBasic with Files := [("a", "/x/a"), ("b", "/x/b")] }

/-- The same Go map (same key-value pairs) in the other iteration order. -/
def specOrderB : PackageSpec :=
  { specBasic with Files := [("b", "/x/b"), ("a", "/x/a")] }

/-- C9 counterexample: two specs whose `Files` maps hold exactly the same
entries (a permutation — the same Go map value, whose iteration order Go
does not fix) produce different `ListFiles` sequences, and neither call is
forced to the lexical key order: the second returns `["b", "a"]`. -/
theorem C9_counterexample :
    specOrderA.Files.Perm specOrderB.Files ∧
    ListFiles specOrderA fsEmpty = .ok ["a", "b"] ∧
    ListFiles specOrderB fsEmpty = .ok ["b", "a"] ∧
    (["a", "b"] : List String) ≠ ["b", "a"] := by decide

/-! ## C10: the conffiles payload -/

theorem utf8Bytes_append (s t : String) : utf8Bytes (s ++ t) = utf8Bytes s ++ utf8Bytes t := by
  simp [utf8Bytes, String.data_append, List.flatMap_append]

/-- C10: the `conffiles` entry written into `control.tar.gz` (always the
second entry) always ends in a newline byte, and when `ListEtcFiles()` is
empty its payload is exactly the single byte `"\n"` — never a zero-length
file. -/
theorem C10_conffiles_newline (p : PackageSpec) (fs : GoFS) (entries : List TarEntry)
    (h : CreateControlArchive p fs = .ok entries) :
    ∃ confFiles payload,
      ListEtcFiles p fs = .ok confFiles ∧
      entries[1]? = some ⟨"conffiles", 384, payload⟩ ∧
      payload ≠ [] ∧ payload.getLast? = some 10 ∧
      (confFiles = [] → payload = [10]) := by
  unfold CreateControlArchive at h
  split at h
  · simp at h
  · split at h
    · simp at h
    · split at h
      · simp at h
      · split at h
        · simp at h
        · rename_i x1 sumData hsum x2 confFiles hconf x3 controlData hctl x4 scripts hscripts
          simp only [Except.ok.injEq] at h
          subst h
          refine ⟨confFiles, utf8Bytes (String.intercalate "\n" confFiles ++ "\n"),
            hconf, rfl, ?_, ?_, ?_⟩
          · rw [utf8Bytes_append]
            simp [(by decide : utf8Bytes "\n" = [10])]
          · rw [utf8Bytes_append]
            simp [(by decide : utf8Bytes "\n" = [10])]
          · intro hempty
            subst hempty
            decide

/-- The control archive entries of the basic spec on the empty
filesystem. -/
def c10Entries : List TarEntry :=
  (CreateControlArchive specBasic fsEmpty).toOption.getD []

/-- C10 witness: at the basic spec with no files, the conffiles entry is
present with payload exactly `[10]`. -/
theorem C10_conffiles_newline_witness :
    (CreateControlArchive specBasic fsEmpty = .ok c10Entries) ∧
    ∃ confFiles payload,
      ListEtcFiles specBasic fsEmpty = .ok confFiles ∧
      c10Entries[1]? = some ⟨"conffiles", 384, payload⟩ ∧
      payload ≠ [] ∧ payload.getLast? = some 10 ∧
      (confFiles = [] → payload = [10]) :=
  ⟨by decide, C10_conffiles_newline specBasic fsEmpty c10Entries (by decide)⟩

/-! ## Inventory lemmas -/

theorem listFilesLoop_ok (p : PackageSpec) (msg : String → String) :
    ∀ srcs files targets files2 targets2,
    listFilesLoop p msg srcs files targets = .ok (files2, targets2) →
    ∃ ts, normalizeAll p srcs = .ok ts ∧ files2 = files ++ srcs ∧
      targets2 = targets ++ ts ∧ (targets.Nodup → targets2.Nodup) := by
  intro srcs
  induction srcs with
  | nil =>
    intro files targets f2 t2 h
    simp only [listFilesLoop, Except.ok.injEq, Prod.mk.injEq] at h
    obtain ⟨h1, h2⟩ := h
    subst h1; subst h2
    exact ⟨[], rfl, by simp, by simp, fun hn => hn⟩
  | cons s rest ih =>
    intro files targets f2 t2 h
    simp only [listFilesLoop] at h
    split at h
    · simp at h
    · rename_i t heq
      split at h
      · simp at h
      · rename_i hcont
        obtain ⟨ts, hts, hf, ht, hnd⟩ := ih (files ++ [s]) (targets ++ [t]) f2 t2 h
        have htmem : t ∉ targets := by
          intro hmem
          exact hcont (by simpa using hmem)
        refine ⟨t :: ts, ?_, ?_, ?_, ?_⟩
        · simp only [normalizeAll, heq, hts]
        · rw [hf]; simp
        · rw [ht]; simp
        · intro hn
          exact hnd (by simp [List.nodup_append, hn, htmem])

theorem listFilesLoop_err (p : PackageSpec) (msg : String → String) :
    ∀ srcs files targets e,
    (∀ s ∈ srcs, ∃ t, NormalizeFilename p s = .ok t) →
    listFilesLoop p msg srcs files targets = .error e → ∃ s ∈ srcs, e = msg s := by
  intro srcs
  induction srcs with
  | nil =>
    intro files targets e _ h
    simp [listFilesLoop] at h
  | cons s rest ih =>
    intro files targets e hall h
    simp only [listFilesLoop] at h
    split at h
    · rename_i e' heq
      obtain ⟨t, ht⟩ := hall s (by simp)
      rw [ht] at heq
      cases heq
    · split at h
      · simp only [Except.error.injEq] at h
        exact ⟨s, by simp, h.symm⟩
      · obtain ⟨s', hs', he⟩ := ih _ _ e (fun x hx => hall x (by simp [hx])) h
        exact ⟨s', by simp [hs'], he⟩

theorem normalizeAll_append (p : PackageSpec) :
    ∀ l1 l2 ts1 ts2, normalizeAll p l1 = .ok ts1 → normalizeAll p l2 = .ok ts2 →
    normalizeAll p (l1 ++ l2) = .ok (ts1 ++ ts2) := by
  intro l1
  induction l1 with
  | nil =>
    intro l2 ts1 ts2 h1 h2
    simp only [normalizeAll, Except.ok.injEq] at h1
    subst h1
    simpa using h2
  | cons s rest ih =>
    intro l2 ts1 ts2 h1 h2
    simp only [normalizeAll] at h1 ⊢
    split at h1
    · cases h1
    · rename_i t heq
      split at h1
      · cases h1
      · rename_i ts' heq'
        simp only [Except.ok.injEq] at h1
        subst h1
        rw [List.cons_append]
        simp [normalizeAll, heq, ih l2 ts' ts2 heq' h2]

theorem normalizeAll_mem (p : PackageSpec) :
    ∀ l ts, normalizeAll p l = .ok ts → ∀ s ∈ l,
    ∃ t, NormalizeFilename p s = .ok t ∧ t ∈ ts := by
  intro l
  induction l with
  | nil => intro ts _ s hs; cases hs
  | cons x rest ih =>
    intro ts h s hs
    simp only [normalizeAll] at h
    split at h
    · cases h
    · rename_i t heq
      split at h
      · cases h
      · rename_i ts' heq'
        simp only [Except.ok.injEq] at h
        subst h
        rcases List.mem_cons.mp hs with rfl | hmem
        · exact ⟨t, heq, by simp⟩
        · obtain ⟨t', ht', htm⟩ := ih ts' heq' s hmem
          exact ⟨t', ht', by simp [htm]⟩

theorem normalizeAll_inj (p : PackageSpec) :
    ∀ l ts, normalizeAll p l = .ok ts → ts.Nodup →
    ∀ s1 ∈ l, ∀ s2 ∈ l, s1 ≠ s2 →
    NormalizeFilename p s1 ≠ NormalizeFilename p s2 := by
  intro l
  induction l with
  | nil => intro ts _ _ s1 hs1; cases hs1
  | cons x rest ih =>
    intro ts h hnd s1 hs1 s2 hs2 hne
    simp only [normalizeAll] at h
    split at h
    · cases h
    · rename_i t heq
      split at h
      · cases h
      · rename_i ts' heq'
        simp only [Except.ok.injEq] at h
        subst h
        simp only [List.nodup_cons] at hnd
        rcases List.mem_cons.mp hs1 with rfl | hm1 <;> rcases List.mem_cons.mp hs2 with rfl | hm2
        · exact absurd rfl hne
        · obtain ⟨t2, ht2, htm2⟩ := normalizeAll_mem p rest ts' heq' s2 hm2
          rw [heq, ht2]
          intro hcontra
          simp only [Except.ok.injEq] at hcontra
          exact hnd.1 (hcontra ▸ htm2)
        · obtain ⟨t1, ht1, htm1⟩ := normalizeAll_mem p rest ts' heq' s1 hm1
          rw [heq, ht1]
          intro hcontra
          simp only [Except.ok.injEq] at hcontra
          exact hnd.1 (hcontra ▸ htm1)
        · exact ih ts' heq' hnd.2 s1 hm1 s2 hm2 hne

theorem ListFiles_ok_parts (p : PackageSpec) (fs : GoFS) (files : List String)
    (h : ListFiles p fs = .ok files) :
    ∃ ts1 ts2, normalizeAll p (walkSources p fs) = .ok ts1 ∧
      normalizeAll p (p.Files.map Prod.fst) = .ok ts2 ∧
      files = walkSources p fs ++ p.Files.map Prod.fst ∧ (ts1 ++ ts2).Nodup := by
  unfold ListFiles at h
  split at h
  · cases h
  · rename_i x1 f1 t1 heq1
    split at h
    · cases h
    · rename_i x2 f2 t2 heq2
      simp only [Except.ok.injEq] at h
      subst h
      obtain ⟨ts1, hts1, hf1, ht1, hnd1⟩ :=
        listFilesLoop_ok p _ (walkSources p fs) [] [] f1 t1 heq1
      obtain ⟨ts2, hts2, hf2, ht2, hnd2⟩ :=
        listFilesLoop_ok p _ (p.Files.map Prod.fst) f1 t1 f2 t2 heq2
      refine ⟨ts1, ts2, hts1, hts2, ?_, ?_⟩
      · rw [hf2, hf1]; simp
      · have h1' : t1.Nodup := hnd1 (by simp)
        have h2' : t2.Nodup := hnd2 h1'
        rw [ht2, ht1] at h2'
        simpa using h2'

/-! ## C9: determinism of ListFiles -/

/-- C9 amended: on success `ListFiles` is exactly the `AutoPath` walk
contribution followed by the `Files` keys in the map iteration order of
the spec value — deterministic for a fixed spec value (including that
order) and fixed filesystem, but not forced to lexical key order, since
Go fixes no map iteration order. -/
theorem C9_listfiles_structure (p : PackageSpec) (fs : GoFS) (files : List String)
    (h : ListFiles p fs = .ok files) :
    files = walkSources p fs ++ p.Files.map Prod.fst := by
  obtain ⟨_, _, _, _, hfiles, _⟩ := ListFiles_ok_parts p fs files h
  exact hfiles

/-- `specPkg1` with an extra explicit Files entry. -/
def specPkg1Files : PackageSpec :=
  { specPkg1 with Files := [("extra.conf", "/etc/extra.conf")] }

/-- C9 witness: a successful inventory with both walk files and a map
entry has exactly the walk-then-keys structure. -/
theorem C9_listfiles_structure_witness :
    ListFiles specPkg1Files fsPkg1 =
      .ok ["test-fixtures/package1/etc/package1/config",
           "test-fixtures/package1/usr/local/bin/package1", "extra.conf"] ∧
    ["test-fixtures/package1/etc/package1/config",
     "test-fixtures/package1/usr/local/bin/package1", "extra.conf"]
      = walkSources specPkg1Files fsPkg1 ++ specPkg1Files.Files.map Prod.fst :=
  ⟨by decide, C9_listfiles_structure specPkg1Files fsPkg1 _ (by decide)⟩

/-! ## C2: duplicate detection -/

/-- C2: whenever two distinct included source paths (from the `AutoPath`
walk and/or the `Files` map) normalize to the same in-archive target — and
every included source normalizes at all — `ListFiles` fails with a
duplicate-file error; and on success the normalized targets of the
returned sequence are duplicate-free. -/
theorem C2_duplicate_detection (p : PackageSpec) (fs : GoFS) :
    ((∀ s ∈ includedSources p fs, ∃ t, NormalizeFilename p s = .ok t) →
      ∀ s1 s2, s1 ∈ includedSources p fs → s2 ∈ includedSources p fs → s1 ≠ s2 →
        NormalizeFilename p s1 = NormalizeFilename p s2 →
        ∃ e, ListFiles p fs = .error e ∧ "Duplicate file detected".data <+: e.data) ∧
    (∀ files, ListFiles p fs = .ok files →
      ∃ ts, normalizeAll p files = .ok ts ∧ ts.Nodup) := by
  constructor
  · intro hall s1 s2 h1 h2 hne heq
    cases hres : ListFiles p fs with
    | ok files =>
      exfalso
      obtain ⟨ts1, ts2, hn1, hn2, hfiles, hnodup⟩ := ListFiles_ok_parts p fs files hres
      have hcomb : normalizeAll p (includedSources p fs) = .ok (ts1 ++ ts2) :=
        normalizeAll_append p _ _ _ _ hn1 hn2
      exact normalizeAll_inj p _ _ hcomb hnodup s1 h1 s2 h2 hne heq
    | error e =>
      refine ⟨e, rfl, ?_⟩
      unfold ListFiles at hres
      split at hres
      · rename_i x1 e' heq1
        simp only [Except.error.injEq] at hres
        subst hres
        obtain ⟨s, _, hmsg⟩ := listFilesLoop_err p _ (walkSources p fs) [] [] e'
          (fun s hs => hall s (List.mem_append_left _ hs)) heq1
        subst hmsg
        rw [String.data_append]
        exact (by decide :
          "Duplicate file detected".data <+: "Duplicate file detected from AutoPath: ".data).trans
          (List.prefix_append _ _)
      · rename_i x1 f1 t1 heq1
        split at hres
        · rename_i x2 e' heq2
          simp only [Except.error.injEq] at hres
          subst hres
          obtain ⟨s, _, hmsg⟩ := listFilesLoop_err p _ (p.Files.map Prod.fst) f1 t1 e'
            (fun s hs => hall s (List.mem_append_right _ hs)) heq2
          subst hmsg
          rw [String.data_append]
          exact (by decide :
            "Duplicate file detected".data <+: "Duplicate file detected from Files: ".data).trans
            (List.prefix_append _ _)
        · cases hres
  · intro files h
    obtain ⟨ts1, ts2, hn1, hn2, hfiles, hnodup⟩ := ListFiles_ok_parts p fs files h
    exact ⟨ts1 ++ ts2, hfiles ▸ normalizeAll_append p _ _ _ _ hn1 hn2, hnodup⟩

/-! ## Path shape lemmas for C3 -/

theorem splitChar_sep_not_mem (sep : Char) :
    ∀ cs part, part ∈ splitChar sep cs → sep ∉ part := by
  intro cs
  induction cs with
  | nil =>
    intro part h
    simp only [splitChar, List.mem_singleton] at h
    simp [h]
  | cons c rest ih =>
    intro part h
    simp only [splitChar] at h
    split at h
    · simp at h; simp [h]
    · rename_i hd tl hs
      split at h
      · rename_i hc
        rcases List.mem_cons.mp h with rfl | hmem
        · simp
        · exact ih part (hs ▸ hmem)
      · rename_i hc
        rcases List.mem_cons.mp h with rfl | hmem
        · intro hin
          rcases List.mem_cons.mp hin with rfl | hin'
          · exact hc rfl
          · exact ih hd (hs ▸ List.mem_cons_self hd tl) hin'
        · exact ih part (hs ▸ List.mem_cons_of_mem hd hmem)

theorem cleanStep_good {rooted : Bool} {stack : List (List Char)} {e : List Char}
    (hs : ∀ x ∈ stack, goodElem x) (he : '/' ∉ e) :
    ∀ x ∈ cleanStep rooted stack e, goodElem x := by
  intro x hx
  by_cases h1 : e = [] ∨ e = ['.']
  · unfold cleanStep at hx
    rw [if_pos h1] at hx
    exact hs x hx
  · by_cases h2 : e = ['.', '.']
    · subst h2
      cases stack with
      | nil =>
        cases rooted with
        | true =>
          have hstep : cleanStep true [] ['.', '.'] = [] := by
            unfold cleanStep; rw [if_neg h1]; rfl
          rw [hstep] at hx
          cases hx
        | false =>
          have hstep : cleanStep false [] ['.', '.'] = [['.', '.']] := by
            unfold cleanStep; rw [if_neg h1]; rfl
          rw [hstep] at hx
          simp only [List.mem_singleton] at hx
          subst hx
          decide
      | cons top rest =>
        by_cases h3 : top = ['.', '.']
        · have hstep : cleanStep rooted (top :: rest) ['.', '.'] = ['.', '.'] :: top :: rest := by
            unfold cleanStep; rw [if_neg h1]; simp [h3]
          rw [hstep] at hx
          rcases List.mem_cons.mp hx with rfl | hmem
          · decide
          · exact hs x hmem
        · have hstep : cleanStep rooted (top :: rest) ['.', '.'] = rest := by
            unfold cleanStep; rw [if_neg h1]; simp [h3]
          rw [hstep] at hx
          exact hs x (List.mem_cons_of_mem top hx)
    · have hstep : cleanStep rooted stack e = e :: stack := by
        unfold cleanStep; rw [if_neg h1, if_neg h2]
      rw [hstep] at hx
      rcases List.mem_cons.mp hx with rfl | hmem
      · exact ⟨fun h => h1 (Or.inl h), he, fun h => h1 (Or.inr h)⟩
      · exact hs x hmem

theorem cleanFold_good (rooted : Bool) :
    ∀ (parts stack : List (List Char)),
    (∀ part ∈ parts, '/' ∉ part) → (∀ x ∈ stack, goodElem x) →
    ∀ x ∈ parts.foldl (cleanStep rooted) stack, goodElem x := by
  intro parts
  induction parts with
  | nil => intro stack _ hs x hx; exact hs x hx
  | cons e rest ih =>
    intro stack hp hs x hx
    exact ih (cleanStep rooted stack e)
      (fun q hq => hp q (List.mem_cons_of_mem e hq))
      (cleanStep_good hs (hp e (List.mem_cons_self e rest))) x hx

theorem joinSlash_shape (e : List Char) (es : List (List Char)) :
    ∃ r, joinSlash (e :: es) = e ++ r := by
  cases es with
  | nil => exact ⟨[], by simp [joinSlash]⟩
  | cons f fs => exact ⟨'/' :: joinSlash (f :: fs), rfl⟩

theorem prefix_facts_of_good (e r : List Char) (hg : goodElem e) :
    e ++ r ≠ [] ∧ ¬(['.', '/'] <+: e ++ r) ∧ ¬(['/'] <+: e ++ r) := by
  obtain ⟨hne, hslash, hdot⟩ := hg
  cases e with
  | nil => exact absurd rfl hne
  | cons c1 e' =>
    refine ⟨by simp, ?_, ?_⟩
    · rintro ⟨t, ht⟩
      rw [List.cons_append] at ht
      injection ht with h1 h2
      cases e' with
      | nil => exact hdot (by rw [← h1])
      | cons c2 e'' =>
        rw [List.cons_append] at h2
        injection h2 with h3 _
        exact hslash (by simp [← h3])
    · rintro ⟨t, ht⟩
      rw [List.cons_append] at ht
      injection ht with h1 _
      exact hslash (by simp [← h1])

theorem cleanChars_nonrooted_facts (cs : List Char) (hroot : cs.head? ≠ some '/') :
    cleanChars cs ≠ [] ∧ ¬(['.', '/'] <+: cleanChars cs) ∧ ¬(['/'] <+: cleanChars cs) := by
  cases cs with
  | nil => exact ⟨by decide, by decide, by decide⟩
  | cons c rest =>
    have hc : ¬(c = '/') := by simpa using hroot
    simp only [cleanChars]
    rw [if_neg hc]
    set E := ((splitChar '/' (c :: rest)).foldl (cleanStep (decide (c = '/'))) []).reverse with hE
    have hgood : ∀ x ∈ E, goodElem x := by
      intro x hx
      rw [hE, List.mem_reverse] at hx
      exact cleanFold_good _ (splitChar '/' (c :: rest)) []
        (fun part hpart => splitChar_sep_not_mem '/' (c :: rest) part hpart)
        (by simp) x hx
    clear_value E
    cases E with
    | nil => exact ⟨by decide, by decide, by decide⟩
    | cons e es =>
      obtain ⟨r, hr⟩ := joinSlash_shape e es
      rw [hr]
      exact prefix_facts_of_good e r (hgood e (List.mem_cons_self e es))

theorem pathJoin_dot_facts (y : String) :
    pathJoin [".", y] ≠ "" ∧ ¬(['.', '/'] <+: (pathJoin [".", y]).data) ∧
    ¬(['/'] <+: (pathJoin [".", y]).data) := by
  by_cases hy : y = ""
  · subst hy; exact ⟨by decide, by decide, by decide⟩
  · have hfilter : ([".", y].filter (fun e => e ≠ "")) = [".", y] := by simp [hy]
    have hJ : joinNonEmpty [".", y] = "." ++ "/" ++ y := rfl
    have hdata : ("." ++ "/" ++ y).data = '.' :: '/' :: y.data := by
      rw [String.data_append, (by decide : ("." ++ "/" : String).data = ['.', '/'])]
      rfl
    simp only [pathJoin]
    rw [hfilter, if_neg (by simp), hJ]
    have hfacts := cleanChars_nonrooted_facts ('.' :: '/' :: y.data) (by simp)
    unfold pathClean
    rw [hdata]
    refine ⟨?_, hfacts.2.1, hfacts.2.2⟩
    intro hcontra
    exact hfacts.1 (by simpa [String.ext_iff] using hcontra)

/-! ## C3: normalized in-archive paths -/

/-- `specBasic` with one explicit Files mapping, the doc example of
`NormalizeFilename`. -/
def specC3 : PackageSpec :=
  { specBasic with Files := [("config", "/etc/config")] }

/-- C3 counterexample: for the Files mapping `config -> /etc/config`, the
normalized path is `etc/config` — `path.Join` cleans away the `./`
prefix — so it is not `"./" ++ "etc/config"` and does not begin with
`./`. -/
theorem C3_counterexample :
    NormalizeFilename specC3 "config" = .ok "etc/config" ∧
    NormalizeFilename specC3 "config" ≠ .ok ("./" ++ "etc/config") ∧
    ¬(['.', '/'] <+: "etc/config".data) := by decide

/-- C3 amended: every successfully normalized in-archive path is non-empty,
relative (does not begin with `/`) and does not begin with `./`: for a key
of the Files map it is `path.Join(".", Files[src])`, otherwise, with
`AutoPath` enabled, `path.Join(".", Rel(AutoPath, src))` — the cleaned
path without any `./` prefix; when `src` is no Files key and `AutoPath` is
disabled, `NormalizeFilename` fails. -/
theorem C3_normalize_shape (p : PackageSpec) (src : String) :
    (∀ t, NormalizeFilename p src = .ok t →
      t ≠ "" ∧ ¬(['.', '/'] <+: t.data) ∧ ¬(['/'] <+: t.data) ∧
      ((∃ dest, lookupFiles p.Files src = some dest ∧ t = pathJoin [".", dest]) ∨
       (lookupFiles p.Files src = none ∧ autoPathEnabled p = true ∧
        ∃ r, pathRel p.AutoPath src = .ok r ∧ t = pathJoin [".", r]))) ∧
    (lookupFiles p.Files src = none → autoPathEnabled p = false →
      NormalizeFilename p src = .error ("Not sure what to do with \"" ++ src
        ++ "\" because it is not specified in files and autopath is disabled")) := by
  constructor
  · intro t ht
    unfold NormalizeFilename at ht
    split at ht
    · rename_i dest hdest
      simp only [Except.ok.injEq] at ht
      subst ht
      obtain ⟨f1, f2, f3⟩ := pathJoin_dot_facts dest
      exact ⟨f1, f2, f3, Or.inl ⟨dest, hdest, rfl⟩⟩
    · rename_i hnone
      split at ht
      · rename_i hen
        split at ht
        · cases ht
        · rename_i r hrel
          simp only [Except.ok.injEq] at ht
          subst ht
          obtain ⟨f1, f2, f3⟩ := pathJoin_dot_facts r
          exact ⟨f1, f2, f3, Or.inr ⟨hnone, hen, r, hrel, rfl⟩⟩
      · cases ht
  · intro hnone hdis
    simp [NormalizeFilename, hnone, hdis]

/-- C3 witness: the amended shape at the concrete Files mapping. -/
theorem C3_normalize_shape_witness :
    NormalizeFilename specC3 "config" = .ok "etc/config" ∧
    "etc/config" ≠ "" ∧ ¬(['.', '/'] <+: "etc/config".data) ∧
    ¬(['/'] <+: "etc/config".data) := by
  have h := (C3_normalize_shape specC3 "config").1 "etc/config" (by decide)
  exact ⟨by decide, h.1, h.2.1, h.2.2.1⟩

/-- `specBasic` with two Files entries whose targets collide. -/
def specDup : PackageSpec :=
  { specBasic with Files := [("f1", "/etc/x"), ("f2", "/etc/x")] }

example : ListFiles specDup fsEmpty = .error "Duplicate file detected from Files: f2" := by decide

/-- C2 witness: at a spec with two sources mapped to the same target,
`ListFiles` fails with a duplicate-file error. -/
theorem C2_duplicate_detection_witness :
    ∃ e, ListFiles specDup fsEmpty = .error e ∧ "Duplicate file detected".data <+: e.data :=
  (C2_duplicate_detection specDup fsEmpty).1
    (by
      intro s hs
      rw [(by decide : includedSources specDup fsEmpty = ["f1", "f2"])] at hs
      simp only [List.mem_cons, List.not_mem_nil, or_false] at hs
      rcases hs with rfl | rfl
      · exact ⟨"etc/x", by decide⟩
      · exact ⟨"etc/x", by decide⟩)
    "f1" "f2" (by decide) (by decide) (by decide) (by decide)

/-! ## C7: the conffiles filter -/

theorem listEtcLoop_spec (p : PackageSpec) :
    ∀ files etc, listEtcLoop p files = .ok etc →
    ∃ ts, normalizeAll p files = .ok ts ∧
      etc = (ts.filter (fun t => goHasPrefix t "etc")).map (fun t => "/" ++ t) := by
  intro files
  induction files with
  | nil =>
    intro etc h
    simp only [listEtcLoop, Except.ok.injEq] at h
    subst h
    exact ⟨[], rfl, rfl⟩
  | cons f rest ih =>
    intro etc h
    simp only [listEtcLoop] at h
    split at h
    · cases h
    · rename_i n heq
      split at h
      · cases h
      · rename_i etc' heq'
        simp only [Except.ok.injEq] at h
        subst h
        obtain ⟨ts, hts, hetc⟩ := ih etc' heq'
        refine ⟨n :: ts, ?_, ?_⟩
        · simp only [normalizeAll, heq, hts]
        · by_cases hp : goHasPrefix n "etc" = true
          · simp [List.filter_cons, hp, hetc]
          · simp [List.filter_cons, hp, hetc]

/-- `specBasic` with a Files entry installing under a directory that merely
starts with the three letters `etc`. -/
def specC7 : PackageSpec :=
  { specBasic with Files := [("srcfile", "etcetera/conf")] }

/-- C7 counterexample: the filter of `ListEtcFiles` is the string prefix
`etc` (no slash), so a file normalizing to `etcetera/conf` is listed, and
the returned path `/etcetera/conf` does not start with `/etc/`. -/
theorem C7_counterexample :
    specC7.UpgradeConfigs = false ∧
    ListEtcFiles specC7 fsEmpty = .ok ["/etcetera/conf"] ∧
    ¬("/etc/".data <+: "/etcetera/conf".data) ∧
    NormalizeFilename specC7 "srcfile" = .ok "etcetera/conf" ∧
    ¬("etc/".data <+: "etcetera/conf".data) := by decide

/-- C7 amended: if `UpgradeConfigs` is set, `ListEtcFiles` returns the
empty list; otherwise it returns exactly, for each file of `ListFiles()`
whose normalized path starts with the string `etc` (with no slash
required), that normalized path with `/` prepended — so every returned
path starts with `/etc` (not necessarily `/etc/`). -/
theorem C7_list_etc_files (p : PackageSpec) (fs : GoFS) :
    (p.UpgradeConfigs = true → ListEtcFiles p fs = .ok []) ∧
    (∀ etc, ListEtcFiles p fs = .ok etc → p.UpgradeConfigs = false →
      ∃ files ts, ListFiles p fs = .ok files ∧ normalizeAll p files = .ok ts ∧
        etc = (ts.filter (fun t => goHasPrefix t "etc")).map (fun t => "/" ++ t) ∧
        ∀ e ∈ etc, "/etc".data <+: e.data) := by
  constructor
  · intro hu
    simp [ListEtcFiles, hu]
  · intro etc h hu
    unfold ListEtcFiles at h
    rw [if_neg (by simp [hu])] at h
    split at h
    · cases h
    · rename_i files heqf
      obtain ⟨ts, hts, hetc⟩ := listEtcLoop_spec p files etc h
      refine ⟨files, ts, heqf, hts, hetc, ?_⟩
      intro e he
      rw [hetc] at he
      simp only [List.mem_map, List.mem_filter] at he
      obtain ⟨t, ⟨_, hpre⟩, rfl⟩ := he
      have hp : "etc".data <+: t.data :=
        List.isPrefixOf_iff_prefix.mp (by simpa [goHasPrefix] using hpre)
      rw [String.data_append, (by decide : "/etc".data = '/' :: "etc".data),
        (by decide : "/".data = ['/'])]
      exact List.cons_prefix_cons.mpr ⟨rfl, hp⟩

/-- `specBasic` with a genuine `/etc` Files entry. -/
def specEtc : PackageSpec :=
  { specBasic with Files := [("app.conf", "/etc/app.conf")] }

/-- C7 witness: the amended statement at a concrete `/etc` mapping. -/
theorem C7_list_etc_files_witness :
    ∃ files ts, ListFiles specEtc fsEmpty = .ok files ∧
      normalizeAll specEtc files = .ok ts ∧
      ["/etc/app.conf"] = (ts.filter (fun t => goHasPrefix t "etc")).map (fun t => "/" ++ t) ∧
      ∀ e ∈ ["/etc/app.conf"], "/etc".data <+: e.data :=
  (C7_list_etc_files specEtc fsEmpty).2 ["/etc/app.conf"] (by decide) (by decide)

/-! ## C6: checksum line shape -/

theorem flatMap_hexByte_length (bs : List Nat) :
    (bs.flatMap hexByte).length = 2 * bs.length := by
  induction bs with
  | nil => rfl
  | cons b rest ih =>
    simp only [List.flatMap_cons, List.length_append, ih, hexByte]
    simp
    omega

theorem md5Bytes_length (msg : List Nat) : (md5Bytes msg).length = 16 := by
  simp [md5Bytes, wordBytes]

theorem md5Hex_length (msg : List Nat) : (md5Hex msg).length = 32 := by
  show ((md5Bytes msg).flatMap hexByte).asString.length = 32
  rw [show ∀ l : List Char, l.asString.length = l.length from fun l => rfl]
  rw [flatMap_hexByte_length, md5Bytes_length]

theorem hexDigits_getD_mem (n : Nat) : hexDigits.getD n '0' ∈ hexDigits := by
  by_cases h : n < hexDigits.length
  · rw [List.getD_eq_getElem hexDigits '0' h]
    exact List.getElem_mem h
  · rw [List.getD_eq_default hexDigits '0' (by omega)]
    decide

theorem md5Hex_chars (msg : List Nat) : ∀ c ∈ (md5Hex msg).data, c ∈ hexDigits := by
  intro c hc
  change c ∈ (md5Bytes msg).flatMap hexByte at hc
  rw [List.mem_flatMap] at hc
  obtain ⟨b, _, hb⟩ := hc
  simp only [hexByte, List.mem_cons, List.not_mem_nil, or_false] at hb
  rcases hb with rfl | rfl
  · exact hexDigits_getD_mem _
  · exact hexDigits_getD_mem _

theorem checksumLoop_spec (p : PackageSpec) (fs : GoFS) :
    ∀ files out, checksumLoop p fs files = .ok out →
    ∃ lines, out = strJoin lines ∧
      List.Forall₂ (fun f l => ∃ bs norm, fs.contents f = some bs ∧
        NormalizeFilename p f = .ok norm ∧
        l = md5Hex bs ++ "  " ++ norm ++ "\n") files lines := by
  intro files
  induction files with
  | nil =>
    intro out h
    simp only [checksumLoop, Except.ok.injEq] at h
    subst h
    exact ⟨[], rfl, List.Forall₂.nil⟩
  | cons f rest ih =>
    intro out h
    simp only [checksumLoop] at h
    split at h
    · cases h
    · rename_i sum heqs
      split at h
      · cases h
      · rename_i n heqn
        split at h
        · cases h
        · rename_i data heqd
          simp only [Except.ok.injEq] at h
          subst h
          obtain ⟨lines, hdata, hfa⟩ := ih data heqd
          unfold md5SumFile at heqs
          split at heqs
          · cases heqs
          · rename_i bs hbs
            simp only [Except.ok.injEq] at heqs
            refine ⟨(sum ++ "  " ++ n ++ "\n") :: lines, ?_, ?_⟩
            · rw [hdata]
              simp [strJoin]
            · exact List.Forall₂.cons ⟨bs, n, hbs, heqn, by rw [heqs]⟩ hfa

/-- C6: the output of `CalculateChecksums` is exactly one line per element
of `ListFiles()`, in inventory order (so the line count equals the length
of `ListFiles()`), each line being the 32-character lowercase-hex MD5 of
the file contents, exactly two spaces, the normalized in-archive path, and
a terminating newline — also on the last line. -/
theorem C6_checksum_lines (p : PackageSpec) (fs : GoFS) (files : List String) (out : String)
    (hf : ListFiles p fs = .ok files) (h : CalculateChecksums p fs = .ok out) :
    ∃ lines, out = strJoin lines ∧ lines.length = files.length ∧
      List.Forall₂ (fun f l => ∃ bs norm, fs.contents f = some bs ∧
        NormalizeFilename p f = .ok norm ∧
        l = md5Hex bs ++ "  " ++ norm ++ "\n" ∧
        (md5Hex bs).length = 32 ∧ (∀ c ∈ (md5Hex bs).data, c ∈ hexDigits)) files lines := by
  unfold CalculateChecksums at h
  split at h
  · cases h
  · rename_i files' heqf
    rw [hf] at heqf
    injection heqf with heqf
    subst heqf
    obtain ⟨lines, hout, hfa⟩ := checksumLoop_spec p fs files out h
    refine ⟨lines, hout, (List.Forall₂.length_eq hfa).symm, ?_⟩
    exact hfa.imp (fun a b hab => by
      obtain ⟨bs, n, h1, h2, h3⟩ := hab
      exact ⟨bs, n, h1, h2, h3, md5Hex_length bs, md5Hex_chars bs⟩)

/-- `specBasic` with a single explicit file. -/
def specC6 : PackageSpec :=
  { specBasic with Files := [("f", "/usr/bin/f")] }

/-- A filesystem holding just that file. -/
def fsC6 : GoFS :=
  ⟨fun _ => false, fun _ => [], fun s => if s = "f" then some (utf8Bytes "hi") else none,
   fun _ => 420⟩

/-- The checksum output at that spec. -/
def c6Out : String :=
  (CalculateChecksums specC6 fsC6).toOption.getD ""

/-- C6 witness: the line shape at a concrete one-file inventory. -/
theorem C6_checksum_lines_witness :
    ∃ lines, c6Out = strJoin lines ∧ lines.length = (["f"] : List String).length ∧
      List.Forall₂ (fun f l => ∃ bs norm, fsC6.contents f = some bs ∧
        NormalizeFilename specC6 f = .ok norm ∧
        l = md5Hex bs ++ "  " ++ norm ++ "\n" ∧
        (md5Hex bs).length = 32 ∧ (∀ c ∈ (md5Hex bs).data, c ∈ hexDigits)) ["f"] lines :=
  C6_checksum_lines specC6 fsC6 ["f"] c6Out (by decide) (by decide)

end Mkdeb
